import Mathlib

/-
Verification of the PregnancyTracker domain layer (`models.py`, `storage.py`)
against its natural-language specification.

Shallow embedding conventions:
- A Python `datetime.date` is identified with its proleptic Gregorian ordinal
  (`date.toordinal()`, an integer ≥ 1); `date + timedelta(days = n)` is ordinal
  addition and `(a - b).days` is ordinal subtraction, which is exactly Python's
  semantics.
- The per-day intensity dict `period_levels` is an association list from day
  ordinal to intensity; dict keys are unique, which appears as a `Nodup`
  hypothesis on the key list.
- A Python ISO date string is `DateStr`: either a parseable calendar date
  (carried as year/month/day) or malformed; `datetime.strptime` raising on a
  malformed string is `toDate` returning `none`, and computations that would
  propagate the exception return `Except.error`.
- The unbounded `while` loop in `predict_from_periods` is embedded with fuel;
  exhausted fuel (`none`) marks genuine divergence, proved as such below.
-/

namespace PregnancyTracker

/-- Gregorian leap-year test, as in Python's `calendar`/`datetime`. -/
def isLeap (y : Nat) : Bool :=
  y % 4 == 0 && (y % 100 != 0 || y % 400 == 0)

/-- Cumulative day count before month `m` in year `y` (month 1 = January). -/
def daysBeforeMonth (y m : Nat) : Nat :=
  [0, 31, 59, 90, 120, 151, 181, 212, 243, 273, 304, 334].getD (m - 1) 0 +
    (if 2 < m && isLeap y then 1 else 0)

/-- Number of days in the given month, as `calendar.monthrange(y, m)[1]`. -/
def daysInMonth (y m : Nat) : Nat :=
  if m == 2 then (if isLeap y then 29 else 28)
  else if m == 4 || m == 6 || m == 9 || m == 11 then 30
  else 31

/-- Proleptic Gregorian ordinal of a calendar date, as `date.toordinal()`
(so `toOrdinal 1 1 1 = 1`). -/
def toOrdinal (y m d : Nat) : Int :=
  365 * ((y : Int) - 1) + (((y - 1) / 4 : Nat) : Int) - (((y - 1) / 100 : Nat) : Int) +
    (((y - 1) / 400 : Nat) : Int) + (daysBeforeMonth y m : Int) + (d : Int)

/-- An ISO date string: either parseable to a calendar date or malformed. -/
inductive DateStr where
  | valid (y m d : Nat)
  | malformed
deriving DecidableEq

/-- `models.to_date` / `datetime.strptime(d, "%Y-%m-%d")`: `none` models the
`ValueError` raised on a malformed string. -/
def toDate : DateStr → Option Int
  | .valid y m d => some (toOrdinal y m d)
  | .malformed => none

/- ---------------------------------------------------------------------------
IntensityStore: the `period_levels` dict, day ordinal → intensity.
--------------------------------------------------------------------------- -/

/-- The `period_levels` dict as an association list (day ordinal, intensity). -/
abbrev Levels := List (Int × Nat)

/-- First-match association lookup, `levels.get(k)`. -/
def lookupLevel : Levels → Int → Option Nat
  | [], _ => none
  | e :: rest, k => if e.1 = k then some e.2 else lookupLevel rest k

/-- `int(levels.get(k, 0))`. -/
def getLevel (m : Levels) (k : Int) : Nat :=
  (lookupLevel m k).getD 0

/-- `levels[k] = v`: replace the entry for `k` if present, else append. -/
def setLevel : Levels → Int → Nat → Levels
  | [], k, v => [(k, v)]
  | e :: rest, k, v => if e.1 = k then (k, v) :: rest else e :: setLevel rest k v

/-- `del levels[k]`: drop the entry keyed `k`. -/
def delLevel : Levels → Int → Levels
  | [], _ => []
  | e :: rest, k => if e.1 = k then delLevel rest k else e :: delLevel rest k

/-- Keys of the store are pairwise distinct (always true of a Python dict). -/
def nodupKeys (m : Levels) : Prop :=
  (m.map Prod.fst).Nodup

/-- `storage.toggle_period_day` restricted to its effect on `period_levels`:
read the current level (default 0); at level ≥ 3 delete the entry, otherwise
store level + 1. -/
def cycleIntensity (m : Levels) (k : Int) : Levels :=
  let cur := getLevel m k
  if 3 ≤ cur then delLevel m k else setLevel m k (cur + 1)

/-- Modelled from the spec: `setIntensity(day, level)` has no single named
implementation in `storage.py` (the UI mutates `period_levels` through
`add_period`, `edit_period` and `toggle_period_day`); per the spec, level 0
removes the entry and levels 1–3 store it. -/
def setIntensity (m : Levels) (k : Int) (v : Nat) : Levels :=
  if v = 0 then delLevel m k else setLevel m k v

/- ---------------------------------------------------------------------------
IntervalCompactor: `storage._levels_to_periods`.
--------------------------------------------------------------------------- -/

/-- Days of the store with intensity > 0 (`if v and int(v) > 0`; intensities
are naturals here, so both tests collapse to `0 < v`). -/
def presentDays (m : Levels) : List Int :=
  (m.filter (fun e => decide (0 < e.2))).map Prod.fst

/-- `sorted(days)`. -/
def sortedPresentDays (m : Levels) : List Int :=
  List.insertionSort (· ≤ ·) (presentDays m)

/-- The grouping loop of `_levels_to_periods`: walk the remaining sorted days,
extending the current run `(start, duration)` (whose last day is `prev`) on a
gap of exactly one day, else emitting it and opening a new run. -/
def groupRuns (start prev : Int) (dur : Nat) : List Int → List (Int × Nat)
  | [] => [(start, dur)]
  | d :: rest =>
      if d - prev = 1 then groupRuns start d (dur + 1) rest
      else (start, dur) :: groupRuns d d 1 rest

/-- `storage._levels_to_periods`: run-length encode the present days into
(start ordinal, duration) interval records. -/
def levelsToPeriods (m : Levels) : List (Int × Nat) :=
  match sortedPresentDays m with
  | [] => []
  | d :: rest => groupRuns d d 1 rest

/-- Interval `p` covers day `x`: `p.start ≤ x < p.start + p.duration`. -/
def coversDay (p : Int × Nat) (x : Int) : Prop :=
  p.1 ≤ x ∧ x < p.1 + (p.2 : Int)

/- ---------------------------------------------------------------------------
PredictionEngine: `models.predict_from_periods`.
--------------------------------------------------------------------------- -/

/-- Whether the embedded computation aborted with a parse exception
(`ValueError` from `strptime`) or would never terminate. -/
inductive PredictErr where
  | parseError
  | divergence
deriving DecidableEq

/-- Result dict of `predict_from_periods`; `avgCycle = none` models the
`avg_cycle` key being absent from the returned dict. -/
structure PredictResult where
  ovulations : List Int
  fertileWindows : List (Int × Int)
  predictedCycles : List Int
  avgCycle : Option Int
deriving DecidableEq

/-- Round the exact rational `s / n` to the nearest integer, ties to even:
the behaviour of Python's `round` (and `numpy.mean` + `round`) on the exact
value. -/
def roundHalfEven (s : Int) (n : Nat) : Int :=
  let q := s / (n : Int)
  let r := s % (n : Int)
  if 2 * r < (n : Int) then q
  else if (n : Int) < 2 * r then q + 1
  else if q % 2 = 0 then q else q + 1

/-- Consecutive differences of a list, `[ords[i+1] - ords[i] for i ...]`. -/
def diffsOf : List Int → List Int
  | a :: b :: rest => (b - a) :: diffsOf (b :: rest)
  | _ => []

/-- Average cycle length computed by `predict_from_periods` from the sorted
start list: rounded mean of consecutive gaps when ≥ 2 starts are present,
else the configured cycle length. -/
def avgOf (starts : List Int) (cycleLength : Int) : Int :=
  if 2 ≤ starts.length then roundHalfEven (diffsOf starts).sum (diffsOf starts).length
  else cycleLength

/-- The `while (cur - last).days <= days_to_predict` loop, with fuel; `none`
means the fuel ran out (the Python loop would still be running). -/
def forecastLoop (fuel : Nat) (last : Int) (daysToPredict : Nat) (avg : Int) (cur : Int) :
    Option (List Int) :=
  match fuel with
  | 0 => none
  | f + 1 =>
      if cur - last ≤ (daysToPredict : Int) then
        (forecastLoop f last daysToPredict avg (cur + avg)).map (cur :: ·)
      else some []

/-- Body of `predict_from_periods` after the input strings have been parsed
to date ordinals.  Fuel `daysToPredict + 2` is sufficient whenever the loop
terminates at all (proved below), so `Except.error .divergence` marks genuine
non-termination of the Python loop. -/
def predictOnDates (dates : List Int) (cycleLength lutealPhase : Int)
    (lookaheadMonths : Nat) : Except PredictErr PredictResult :=
  match List.insertionSort (· ≤ ·) dates with
  | [] => .ok ⟨[], [], [], none⟩
  | s0 :: srest =>
      let avg := avgOf (s0 :: srest) cycleLength
      let last := (s0 :: srest).getLast (List.cons_ne_nil s0 srest)
      let daysToPredict := lookaheadMonths * 31
      match forecastLoop (daysToPredict + 2) last daysToPredict avg last with
      | none => .error .divergence
      | some predicted =>
          .ok { ovulations := predicted.map (fun s => s + (avg - lutealPhase)),
                fertileWindows :=
                  predicted.map (fun s =>
                    (s + (avg - lutealPhase) - 5, s + (avg - lutealPhase) + 1)),
                predictedCycles := predicted,
                avgCycle := some avg }

/-- The list comprehension `[to_date(s) for s in period_starts]`: the first
malformed string raises, aborting the whole computation (`none`). -/
def parseAll : List DateStr → Option (List Int)
  | [] => some []
  | s :: rest =>
      match toDate s, parseAll rest with
      | some d, some ds => some (d :: ds)
      | _, _ => none

/-- `models.predict_from_periods`. -/
def predictFromPeriods (periodStarts : List DateStr) (cycleLength lutealPhase : Int)
    (lookaheadMonths : Nat) : Except PredictErr PredictResult :=
  match parseAll periodStarts with
  | none => .error .parseError
  | some dates => predictOnDates dates cycleLength lutealPhase lookaheadMonths

/- ---------------------------------------------------------------------------
StatusAggregator: `models.day_status_for_month`.
--------------------------------------------------------------------------- -/

/-- One entry of the `periods` list, `{"start": ..., "duration": ...}`.
`duration = none` models a duration value on which `int(...)` raises (that
exception is caught and the entry skipped); a missing duration key defaults
to 5 before `int` is applied, hence is `some 5`. -/
structure PeriodRec where
  start : DateStr
  duration : Option Int
deriving DecidableEq

/-- Tag set computed for one day `cur` of the month (as an ordered list of the
distinct tags; the source builds a Python `set`). -/
def tagsForDay (periods : List PeriodRec) (periodDays : List DateStr)
    (sexDates : List DateStr) (ov : List Int) (fw : List (Int × Int)) (cur : Int) :
    List String :=
  let isPeriod :=
    periodDays.any (fun pd => toDate pd == some cur) ||
      periods.any (fun p =>
        match toDate p.start, p.duration with
        | some pd, some dur => decide (pd ≤ cur ∧ cur < pd + dur)
        | _, _ => false)
  let isSex := sexDates.any (fun sd => toDate sd == some cur)
  let isOv := ov.contains cur
  let isFert := fw.any (fun w => decide (w.1 ≤ cur ∧ cur ≤ w.2))
  (if isPeriod then ["period"] else []) ++ (if isSex then ["sex"] else []) ++
    (if isOv then ["ovulation"] else []) ++ (if isFert then ["fertile"] else [])

/-- `models.day_status_for_month`: the prediction over the period starts runs
first (its exception propagates); a malformed `period_days` string raises
inside the per-day loop (uncaught there), aborting the whole computation; the
inner `periods` loop catches its own parse failures per entry.  The result
maps each day ordinal of the month to its non-empty tag list. -/
def dayStatusForMonth (periods : List PeriodRec) (periodDays : List DateStr)
    (sexDates : List DateStr) (cycleLength lutealPhase : Int) (year month : Nat) :
    Except PredictErr (List (Int × List String)) :=
  match predictFromPeriods (periods.map (·.start)) cycleLength lutealPhase 6 with
  | .error e => .error e
  | .ok pred =>
      if periodDays.any (fun pd => (toDate pd).isNone) then .error .parseError
      else
        .ok (((List.range (daysInMonth year month)).map (· + 1)).filterMap (fun d =>
          let cur := toOrdinal year month d
          let tags :=
            tagsForDay periods periodDays sexDates pred.ovulations pred.fertileWindows cur
          if tags = [] then none else some (cur, tags)))

/- ---------------------------------------------------------------------------
State, persistence and the snapshot manager: `storage.py`.
--------------------------------------------------------------------------- -/

/-- The `settings` dict. -/
structure Settings where
  cycleLength : Int
  lutealPhase : Int
  theme : Option String
deriving DecidableEq

def defaultSettings : Settings :=
  { cycleLength := 28, lutealPhase := 14, theme := none }

/-- The full data dict: `periods`, `period_levels`, `sex`, `settings`, plus
the optional legacy `period_days` key (`none` = key absent). -/
structure AppData where
  periods : List (Int × Nat)
  levels : Levels
  sex : List Int
  settings : Settings
  periodDays : Option (List Int)
deriving DecidableEq

/-- `storage.default_data()` (it has no `period_days` key). -/
def defaultData : AppData :=
  { periods := [], levels := [], sex := [], settings := defaultSettings,
    periodDays := none }

/-- `storage.save_data`: rederive `periods` from `period_levels`, then write.
The file write is abstracted away: the persisted state is identified with the
in-memory dict. -/
def saveData (d : AppData) : AppData :=
  { d with periods := levelsToPeriods d.levels }

/-- The process state: current (persisted) data plus the two in-memory
snapshot stacks, most recent snapshot first. -/
structure Store where
  data : AppData
  undoStack : List AppData
  redoStack : List AppData

/-- `storage._record_undo_state`: push a snapshot of the current data, drop
the oldest entry if the stack exceeds 50, clear the redo stack. -/
def recordUndo (s : Store) : Store :=
  let us := s.data :: s.undoStack
  { s with undoStack := if 50 < us.length then us.dropLast else us, redoStack := [] }

/-- A mutating storage operation: record the undo snapshot, transform the
data, save (which rederives `periods`). -/
def mutateData (f : AppData → AppData) (s : Store) : Store :=
  let s1 := recordUndo s
  { s1 with data := saveData (f s1.data) }

/-- `storage.undo`. -/
def undo (s : Store) : Store × Bool :=
  match s.undoStack with
  | [] => (s, false)
  | prev :: rest =>
      ({ data := saveData prev, undoStack := rest, redoStack := s.data :: s.redoStack },
        true)

/-- `storage.redo`. -/
def redo (s : Store) : Store × Bool :=
  match s.redoStack with
  | [] => (s, false)
  | nxt :: rest =>
      ({ data := saveData nxt, undoStack := s.data :: s.undoStack, redoStack := rest },
        true)

/- ---------------------------------------------------------------------------
LegacyMigrator: `storage.migrate_period_days_to_levels` (its effect on data).
--------------------------------------------------------------------------- -/

/-- One iteration of the migration loop: set intensity 1 at the legacy day
when the current intensity there is < 1. -/
def migrateStep (lv : Levels) (day : Int) : Levels :=
  if getLevel lv day < 1 then setLevel lv day 1 else lv

/-- `storage.migrate_period_days_to_levels` as a data transformation (the
source additionally records an undo snapshot, which is the SnapshotManager's
concern): a falsy legacy list (absent key or empty list) returns unchanged
with `false`; otherwise each legacy day is migrated, the legacy key removed,
and the data saved. -/
def migrate (d : AppData) : AppData × Bool :=
  match d.periodDays with
  | none => (d, false)
  | some [] => (d, false)
  | some legacy =>
      (saveData { d with levels := legacy.foldl migrateStep d.levels,
                         periodDays := none }, true)

/- ---------------------------------------------------------------------------
Backend load: `storage.load_data`.
--------------------------------------------------------------------------- -/

/-- A parsed JSON object with the top-level fields `load_data` touches; a
missing field is `none` (`dict.setdefault` fills it). -/
structure RawData where
  periods : Option (List (Int × Nat))
  levels : Option Levels
  sex : Option (List Int)
  settings : Option Settings
  periodDays : Option (List Int)
deriving DecidableEq

/-- The stored representation `load_data` can encounter: no file, a file that
cannot be read or parsed as JSON, a file holding valid JSON that is not an
object, or a JSON object. -/
inductive StoredFile where
  | missing
  | unreadable
  | parsedNonDict
  | parsedDict (raw : RawData)
deriving DecidableEq

/-- `storage.load_data`: a missing file or a failed open/parse (both inside
the `try`) yield the default data; a JSON object gets its missing top-level
keys defaulted via `setdefault`; valid JSON that is not an object escapes the
`try` and hits `data.setdefault` on a non-dict, raising `AttributeError`
(`Except.error`). -/
def loadData : StoredFile → Except Unit AppData
  | .missing => .ok defaultData
  | .unreadable => .ok defaultData
  | .parsedNonDict => .error ()
  | .parsedDict raw =>
      .ok { periods := raw.periods.getD [], levels := raw.levels.getD [],
            sex := raw.sex.getD [], settings := raw.settings.getD defaultSettings,
            periodDays := raw.periodDays }

end PregnancyTracker

deriving instance DecidableEq for Except

namespace PregnancyTracker

/- ---------------------------------------------------------------------------
Lemmas about the intensity store primitives.
--------------------------------------------------------------------------- -/

theorem lookupLevel_setLevel (m : Levels) (k : Int) (v : Nat) (x : Int) :
    lookupLevel (setLevel m k v) x = if x = k then some v else lookupLevel m x := by
  induction m with
  | nil =>
      rcases eq_or_ne x k with rfl | h
      · simp [setLevel, lookupLevel]
      · simp [setLevel, lookupLevel, h, Ne.symm h]
  | cons e rest ih =>
      rcases eq_or_ne e.1 k with hek | hek
      · rcases eq_or_ne x k with rfl | hxk
        · simp [setLevel, hek, lookupLevel]
        · simp [setLevel, hek, lookupLevel, hxk, Ne.symm hxk]
      · rcases eq_or_ne e.1 x with hex | hex
        · have hxk : x ≠ k := fun hh => hek (hex.trans hh)
          simp [setLevel, hek, lookupLevel, hex, hxk]
        · simp [setLevel, hek, lookupLevel, hex, ih]

theorem getLevel_setLevel (m : Levels) (k : Int) (v : Nat) (x : Int) :
    getLevel (setLevel m k v) x = if x = k then v else getLevel m x := by
  unfold getLevel
  rw [lookupLevel_setLevel]
  by_cases h : x = k <;> simp [h]

theorem lookupLevel_delLevel_self (m : Levels) (k : Int) :
    lookupLevel (delLevel m k) k = none := by
  induction m with
  | nil => rfl
  | cons e rest ih =>
      rcases eq_or_ne e.1 k with hek | hek
      · simpa [delLevel, hek] using ih
      · simpa [delLevel, hek, lookupLevel] using ih

theorem getLevel_delLevel_self (m : Levels) (k : Int) :
    getLevel (delLevel m k) k = 0 := by
  unfold getLevel
  rw [lookupLevel_delLevel_self]
  rfl

theorem getLevel_cycleIntensity_self (m : Levels) (k : Int) :
    getLevel (cycleIntensity m k) k =
      if 3 ≤ getLevel m k then 0 else getLevel m k + 1 := by
  unfold cycleIntensity
  by_cases h : 3 ≤ getLevel m k
  · simp [h, getLevel_delLevel_self]
  · simp [h, getLevel_setLevel]

/-- C6: `cycleIntensity` advances the stored level 0→1→2→3→0 (0 meaning
absent), and four applications to the same day restore its original level. -/
theorem cycleIntensity_cyclic (m : Levels) (k : Int) (h : getLevel m k ≤ 3) :
    getLevel (cycleIntensity m k) k = (getLevel m k + 1) % 4 ∧
    getLevel
        (cycleIntensity (cycleIntensity (cycleIntensity (cycleIntensity m k) k) k) k) k
      = getLevel m k := by
  have s1 := getLevel_cycleIntensity_self m k
  have s2 := getLevel_cycleIntensity_self (cycleIntensity m k) k
  have s3 := getLevel_cycleIntensity_self (cycleIntensity (cycleIntensity m k) k) k
  have s4 :=
    getLevel_cycleIntensity_self (cycleIntensity (cycleIntensity (cycleIntensity m k) k) k) k
  constructor
  · rw [s1]; split_ifs <;> omega
  · rw [s4, s3, s2, s1]; split_ifs <;> omega

/-- Witness for C6 at the concrete store `{10 ↦ 2}`. -/
theorem cycleIntensity_cyclic_witness :
    getLevel (cycleIntensity [((10 : Int), 2)] 10) 10 =
        (getLevel [((10 : Int), 2)] 10 + 1) % 4 ∧
    getLevel
        (cycleIntensity
          (cycleIntensity (cycleIntensity (cycleIntensity [((10 : Int), 2)] 10) 10) 10) 10) 10
      = getLevel [((10 : Int), 2)] 10 :=
  cycleIntensity_cyclic [((10 : Int), 2)] 10 (by decide)

/- ---------------------------------------------------------------------------
C5: the legacy migration.
--------------------------------------------------------------------------- -/

theorem getLevel_foldl_migrateStep (legacy : List Int) : ∀ (lv : Levels) (x : Int),
    getLevel (legacy.foldl migrateStep lv) x =
      if x ∈ legacy ∧ getLevel lv x = 0 then 1 else getLevel lv x := by
  induction legacy with
  | nil => intro lv x; simp
  | cons l rest ih =>
      intro lv x
      rw [List.foldl_cons, ih]
      unfold migrateStep
      rcases eq_or_ne x l with rfl | hx
      · by_cases hl : getLevel lv x < 1
        · rw [if_pos hl, getLevel_setLevel]
          have h0 : getLevel lv x = 0 := by omega
          simp [h0]
        · rw [if_neg hl]
          have h0 : ¬ getLevel lv x = 0 := by omega
          simp [h0]
      · by_cases hl : getLevel lv l < 1
        · rw [if_pos hl, getLevel_setLevel]
          simp [hx]
        · rw [if_neg hl]
          simp [hx]

theorem migrate_of_falsy (d : AppData) (h : d.periodDays = none ∨ d.periodDays = some []) :
    migrate d = (d, false) := by
  rcases h with h | h <;> (unfold migrate; rw [h])

/-- C5: `migrate` returns `changed = false` on an absent or empty legacy list
leaving the data unmodified; otherwise it raises intensity to 1 exactly at the
legacy days currently at level 0 (never lowering anything), removes the legacy
key, and a second run is a no-op reporting `changed = false`. -/
theorem migrate_spec :
    (∀ d : AppData, d.periodDays = none ∨ d.periodDays = some [] → migrate d = (d, false)) ∧
    (∀ (d : AppData) (legacy : List Int), d.periodDays = some legacy → legacy ≠ [] →
      (migrate d).2 = true ∧ (migrate d).1.periodDays = none ∧
      (∀ x : Int, getLevel (migrate d).1.levels x =
        if x ∈ legacy ∧ getLevel d.levels x = 0 then 1 else getLevel d.levels x) ∧
      (∀ x : Int, getLevel d.levels x ≤ getLevel (migrate d).1.levels x) ∧
      (migrate d).1.sex = d.sex ∧ (migrate d).1.settings = d.settings) ∧
    (∀ d : AppData, migrate (migrate d).1 = ((migrate d).1, false)) := by
  refine ⟨migrate_of_falsy, ?_, ?_⟩
  · intro d legacy hpd hne
    cases legacy with
    | nil => exact absurd rfl hne
    | cons l rest =>
        have hred : migrate d =
            (saveData { d with
                levels := (l :: rest).foldl migrateStep d.levels,
                periodDays := none }, true) := by
          unfold migrate; rw [hpd]
        rw [hred]
        refine ⟨rfl, rfl, ?_, ?_, rfl, rfl⟩
        · intro x
          exact getLevel_foldl_migrateStep (l :: rest) d.levels x
        · intro x
          show getLevel d.levels x ≤ getLevel ((l :: rest).foldl migrateStep d.levels) x
          rw [getLevel_foldl_migrateStep]
          split_ifs with h <;> omega
  · intro d
    cases hd : d.periodDays with
    | none =>
        have h1 : migrate d = (d, false) := migrate_of_falsy d (Or.inl hd)
        rw [h1]; exact h1
    | some l =>
        cases l with
        | nil =>
            have h1 : migrate d = (d, false) := migrate_of_falsy d (Or.inr hd)
            rw [h1]; exact h1
        | cons a t =>
            have hred : migrate d = (saveData { d with levels := (a :: t).foldl migrateStep d.levels, periodDays := none }, true) := by
              unfold migrate; rw [hd]
            rw [hred]
            exact migrate_of_falsy _ (Or.inl rfl)

/-- Witness for C5 at a store with legacy days 5 (already level 3) and 6. -/
theorem migrate_spec_witness :
    (migrate { periods := [], levels := [((5 : Int), 3)], sex := [], settings := defaultSettings, periodDays := some [5, 6] }).2 = true ∧
    getLevel (migrate { periods := [], levels := [((5 : Int), 3)], sex := [], settings := defaultSettings, periodDays := some [5, 6] }).1.levels 5 = 3 ∧
    getLevel (migrate { periods := [], levels := [((5 : Int), 3)], sex := [], settings := defaultSettings, periodDays := some [5, 6] }).1.levels 6 = 1 := by
  have h := migrate_spec.2.1
    { periods := [], levels := [((5 : Int), 3)], sex := [], settings := defaultSettings, periodDays := some [5, 6] } [5, 6] rfl (by decide)
  refine ⟨h.1, ?_, ?_⟩
  · rw [h.2.2.1 5]; decide
  · rw [h.2.2.1 6]; decide

/- ---------------------------------------------------------------------------
C2: correctness of the interval compaction.
--------------------------------------------------------------------------- -/

theorem groupRuns_head (rest : List Int) : ∀ (start prev : Int) (dur : Nat),
    (groupRuns start prev dur rest).head?.map Prod.fst = some start := by
  induction rest with
  | nil => intro s p du; rfl
  | cons d rest ih =>
      intro s p du
      rw [groupRuns]
      by_cases h : d - p = 1
      · rw [if_pos h]; exact ih s d (du + 1)
      · rw [if_neg h]; rfl

theorem groupRuns_dur_pos (rest : List Int) : ∀ (start prev : Int) (dur : Nat), 1 ≤ dur →
    ∀ p ∈ groupRuns start prev dur rest, 1 ≤ p.2 := by
  induction rest with
  | nil =>
      intro s pr du hdu p hp
      rw [groupRuns, List.mem_singleton] at hp
      subst hp; exact hdu
  | cons d rest ih =>
      intro s pr du hdu p hp
      rw [groupRuns] at hp
      by_cases h : d - pr = 1
      · rw [if_pos h] at hp
        exact ih s d (du + 1) (by omega) p hp
      · rw [if_neg h, List.mem_cons] at hp
        rcases hp with rfl | hp
        · exact hdu
        · exact ih d d 1 le_rfl p hp

theorem groupRuns_chain (rest : List Int) : ∀ (start prev : Int) (dur : Nat),
    prev = start + (dur : Int) - 1 → 1 ≤ dur →
    rest.Pairwise (· < ·) → (∀ y ∈ rest, prev < y) →
    (groupRuns start prev dur rest).Chain' (fun a b => a.1 + (a.2 : Int) < b.1) := by
  induction rest with
  | nil =>
      intro s pr du _ _ _ _
      rw [groupRuns]
      exact List.chain'_singleton _
  | cons d rest ih =>
      intro s pr du hinv hdu hpw hgt
      rw [List.pairwise_cons] at hpw
      rw [groupRuns]
      by_cases hgap : d - pr = 1
      · rw [if_pos hgap]
        exact ih s d (du + 1) (by push_cast; omega) (by omega) hpw.2 hpw.1
      · rw [if_neg hgap]
        have hd : pr < d := hgt d (List.mem_cons_self d rest)
        refine List.chain'_cons'.mpr
          ⟨?_, ih d d 1 (by push_cast; omega) le_rfl hpw.2 hpw.1⟩
        intro b hb
        have hh := groupRuns_head rest d d 1
        cases hheadeq : (groupRuns d d 1 rest).head? with
        | none => rw [hheadeq] at hb; cases hb
        | some b0 =>
            rw [hheadeq] at hb hh
            have hh2 : b0.1 = d := by simpa using hh
            rw [Option.mem_def] at hb
            injection hb with hbe
            subst hbe
            show s + (du : Int) < b0.1
            omega

theorem groupRuns_covered (rest : List Int) : ∀ (start prev : Int) (dur : Nat),
    prev = start + (dur : Int) - 1 → 1 ≤ dur →
    rest.Pairwise (· < ·) → (∀ y ∈ rest, prev < y) →
    ∀ x : Int, (∃ p ∈ groupRuns start prev dur rest, coversDay p x) ↔
      ((start ≤ x ∧ x ≤ prev) ∨ x ∈ rest) := by
  induction rest with
  | nil =>
      intro s pr du hinv hdu _ _ x
      rw [groupRuns]
      simp only [List.mem_singleton, List.not_mem_nil, or_false]
      constructor
      · rintro ⟨p, rfl, hcov⟩
        unfold coversDay at hcov
        simp only at hcov
        omega
      · rintro ⟨h1, h2⟩
        exact ⟨(s, du), rfl, by unfold coversDay; simp only; omega⟩
  | cons d rest ih =>
      intro s pr du hinv hdu hpw hgt x
      rw [List.pairwise_cons] at hpw
      have hd : pr < d := hgt d (List.mem_cons_self d rest)
      rw [groupRuns]
      by_cases hgap : d - pr = 1
      · rw [if_pos hgap,
          ih s d (du + 1) (by push_cast; omega) (by omega) hpw.2 hpw.1 x]
        simp only [List.mem_cons]
        constructor
        · rintro (⟨h1, h2⟩ | hr)
          · by_cases hx : x = d
            · exact Or.inr (Or.inl hx)
            · exact Or.inl ⟨h1, by omega⟩
          · exact Or.inr (Or.inr hr)
        · rintro (⟨h1, h2⟩ | hx | hr)
          · exact Or.inl ⟨h1, by omega⟩
          · exact Or.inl ⟨by omega, by omega⟩
          · exact Or.inr hr
      · rw [if_neg hgap]
        have hrec := ih d d 1 (by push_cast; omega) le_rfl hpw.2 hpw.1 x
        simp only [List.mem_cons]
        constructor
        · rintro ⟨p, hp, hcov⟩
          rcases hp with rfl | hp1
          · unfold coversDay at hcov
            simp only at hcov
            left; omega
          · rcases hrec.mp ⟨p, hp1, hcov⟩ with ⟨h1, h2⟩ | hr
            · right; left; omega
            · right; right; exact hr
        · rintro (⟨h1, h2⟩ | hx | hr)
          · exact ⟨(s, du), Or.inl rfl, by unfold coversDay; simp only; omega⟩
          · obtain ⟨p, hp, hcov⟩ := hrec.mpr (Or.inl ⟨le_of_eq hx.symm, le_of_eq hx⟩)
            exact ⟨p, Or.inr hp, hcov⟩
          · obtain ⟨p, hp, hcov⟩ := hrec.mpr (Or.inr hr)
            exact ⟨p, Or.inr hp, hcov⟩

theorem mem_sortedPresentDays (m : Levels) (x : Int) :
    x ∈ sortedPresentDays m ↔ ∃ e ∈ m, 0 < e.2 ∧ e.1 = x := by
  unfold sortedPresentDays presentDays
  rw [List.mem_insertionSort]
  simp only [List.mem_map, List.mem_filter, decide_eq_true_eq]
  constructor
  · rintro ⟨e, ⟨hm, hv⟩, hx⟩
    exact ⟨e, hm, hv, hx⟩
  · rintro ⟨e, hm, hv, hx⟩
    exact ⟨e, ⟨hm, hv⟩, hx⟩

theorem nodup_sortedPresentDays (m : Levels) (h : nodupKeys m) :
    (sortedPresentDays m).Nodup := by
  have h1 : (presentDays m).Nodup :=
    (List.Sublist.map Prod.fst (List.filter_sublist m)).nodup h
  exact ((List.perm_insertionSort _ _).nodup_iff).mpr h1

theorem pairwise_lt_sortedPresentDays (m : Levels) (h : nodupKeys m) :
    (sortedPresentDays m).Pairwise (· < ·) := by
  have hs : (sortedPresentDays m).Pairwise (· ≤ ·) := List.sorted_insertionSort _ _
  have hn : (sortedPresentDays m).Pairwise (· ≠ ·) := nodup_sortedPresentDays m h
  exact (hs.and hn).imp (fun hab => lt_of_le_of_ne hab.1 hab.2)

theorem map_fst_setLevel (m : Levels) (k : Int) (v : Nat) :
    (setLevel m k v).map Prod.fst =
      if k ∈ m.map Prod.fst then m.map Prod.fst else m.map Prod.fst ++ [k] := by
  induction m with
  | nil => simp [setLevel]
  | cons e rest ih =>
      rcases eq_or_ne e.1 k with hek | hek
      · simp [setLevel, hek]
      · simp only [setLevel, if_neg hek, List.map_cons, ih, List.mem_cons]
        by_cases h2 : k ∈ rest.map Prod.fst
        · rw [if_pos h2, if_pos (Or.inr h2)]
        · rw [if_neg h2, if_neg (by rintro (h | h); exact hek h.symm; exact h2 h),
            List.cons_append]

theorem nodupKeys_setLevel (m : Levels) (k : Int) (v : Nat) (h : nodupKeys m) :
    nodupKeys (setLevel m k v) := by
  unfold nodupKeys at *
  rw [map_fst_setLevel]
  split_ifs with hmem
  · exact h
  · simp [List.nodup_append, h, hmem]

theorem delLevel_sublist (m : Levels) (k : Int) : List.Sublist (delLevel m k) m := by
  induction m with
  | nil => exact List.Sublist.refl []
  | cons e rest ih =>
      rw [delLevel]
      by_cases h : e.1 = k
      · rw [if_pos h]; exact ih.trans (List.sublist_cons_self e rest)
      · rw [if_neg h]; exact ih.cons₂ e

theorem nodupKeys_delLevel (m : Levels) (k : Int) (h : nodupKeys m) :
    nodupKeys (delLevel m k) :=
  (List.Sublist.map Prod.fst (delLevel_sublist m k)).nodup h

/-- C2: `setIntensity` and `cycleIntensity` keep the store's keys distinct
(so every reachable store, starting from the empty one, has distinct keys —
a Python dict cannot do otherwise), and on every such store the compaction
yields intervals of positive duration that are strictly sorted with at least
a one-day gap between runs (hence non-overlapping, and a single missing day
splits runs), whose covered days are exactly the days stored with intensity
≥ 1 (value 0 behaving as absent); the empty store compacts to the empty
list. -/
theorem compact_correct :
    (∀ (m : Levels) (k : Int) (v : Nat), nodupKeys m → nodupKeys (setIntensity m k v)) ∧
    (∀ (m : Levels) (k : Int), nodupKeys m → nodupKeys (cycleIntensity m k)) ∧
    nodupKeys [] ∧
    (∀ m : Levels, nodupKeys m →
      (levelsToPeriods m).Pairwise (fun a b => a.1 + (a.2 : Int) < b.1) ∧
      (∀ p ∈ levelsToPeriods m, 1 ≤ p.2) ∧
      (∀ x : Int,
        (∃ p ∈ levelsToPeriods m, coversDay p x) ↔ ∃ e ∈ m, 0 < e.2 ∧ e.1 = x) ∧
      (m = [] → levelsToPeriods m = [])) := by
  have htrans : ∀ a b c : Int × Nat,
      a.1 + (a.2 : Int) < b.1 → b.1 + (b.2 : Int) < c.1 → a.1 + (a.2 : Int) < c.1 := by
    intro a b c h1 h2; omega
  refine ⟨?_, ?_, List.nodup_nil, ?_⟩
  · intro m k v h
    unfold setIntensity
    split_ifs
    · exact nodupKeys_delLevel m k h
    · exact nodupKeys_setLevel m k v h
  · intro m k h
    have hck : cycleIntensity m k =
        if 3 ≤ getLevel m k then delLevel m k else setLevel m k (getLevel m k + 1) := rfl
    rw [hck]
    split_ifs
    · exact nodupKeys_delLevel m k h
    · exact nodupKeys_setLevel m k _ h
  · intro m h
    have hpw := pairwise_lt_sortedPresentDays m h
    cases hsp : sortedPresentDays m with
    | nil =>
        have hL : levelsToPeriods m = [] := by
          unfold levelsToPeriods; rw [hsp]
        rw [hL]
        refine ⟨List.Pairwise.nil, ?_, ?_, fun _ => rfl⟩
        · intro p hp; cases hp
        · intro x
          simp only [List.not_mem_nil, false_and, exists_const, exists_false, false_iff]
          rintro ⟨e, hm, hv, hx⟩
          have hx2 : x ∈ sortedPresentDays m :=
            (mem_sortedPresentDays m x).mpr ⟨e, hm, hv, hx⟩
          rw [hsp] at hx2
          cases hx2
    | cons d rest =>
        have hL : levelsToPeriods m = groupRuns d d 1 rest := by
          unfold levelsToPeriods; rw [hsp]
        rw [hL]
        rw [hsp] at hpw
        rw [List.pairwise_cons] at hpw
        have hinv : d = d + ((1 : Nat) : Int) - 1 := by push_cast; omega
        have hchain := groupRuns_chain rest d d 1 hinv le_rfl hpw.2 hpw.1
        have hcov := groupRuns_covered rest d d 1 hinv le_rfl hpw.2 hpw.1
        refine ⟨?_, groupRuns_dur_pos rest d d 1 le_rfl, ?_, ?_⟩
        · haveI : IsTrans (Int × Nat) (fun a b => a.1 + (a.2 : Int) < b.1) :=
            ⟨fun a b c => htrans a b c⟩
          exact List.chain'_iff_pairwise.mp hchain
        · intro x
          rw [hcov x]
          have hm := mem_sortedPresentDays m x
          rw [hsp] at hm
          rw [← hm, List.mem_cons]
          constructor
          · rintro (⟨h1, h2⟩ | hr)
            · exact Or.inl (le_antisymm h2 h1)
            · exact Or.inr hr
          · rintro (rfl | hr)
            · exact Or.inl ⟨le_rfl, le_rfl⟩
            · exact Or.inr hr
        · intro hm0
          exfalso
          rw [hm0] at hsp
          simp [sortedPresentDays, presentDays] at hsp

/- ---------------------------------------------------------------------------
C4: the undo/redo round trip.
--------------------------------------------------------------------------- -/

theorem saveData_of_consistent (d : AppData) (h : d.periods = levelsToPeriods d.levels) :
    saveData d = d := by
  unfold saveData
  rw [← h]

theorem undo_redo_aux (D prevD : AppData) (T : List AppData) :
    (undo ⟨D, prevD :: T, []⟩).2 = true ∧
    (undo ⟨D, prevD :: T, []⟩).1.data = saveData prevD ∧
    (redo (undo ⟨D, prevD :: T, []⟩).1).2 = true ∧
    (redo (undo ⟨D, prevD :: T, []⟩).1).1.data = saveData D :=
  ⟨rfl, rfl, rfl, rfl⟩

theorem mutateData_shape (f : AppData → AppData) (s : Store) :
    ∃ T : List AppData,
      mutateData f s = ⟨saveData (f s.data), s.data :: T, []⟩ := by
  by_cases hlen : 50 < (s.data :: s.undoStack).length
  · cases hus : s.undoStack with
    | nil =>
        exfalso
        rw [hus] at hlen
        simp at hlen
    | cons b t =>
        refine ⟨(b :: t).dropLast, ?_⟩
        simp only [mutateData, recordUndo]
        rw [hus] at hlen ⊢
        rw [if_pos hlen, List.dropLast_cons₂]
  · refine ⟨s.undoStack, ?_⟩
    simp only [mutateData, recordUndo]
    rw [if_neg hlen]

/-- C4: after any single mutation, `undo` reports `performed = true` and
restores the pre-mutation intensity store, intimacy list and settings exactly
(and the whole pre-mutation data dict whenever its `periods` field was
consistent with its intensity store, as every dict written by `save_data`
is); a subsequent `redo` reports `performed = true` and restores the whole
post-mutation data dict exactly. -/
theorem undo_redo_roundTrip (s : Store) (f : AppData → AppData) :
    (undo (mutateData f s)).2 = true ∧
    (undo (mutateData f s)).1.data.levels = s.data.levels ∧
    (undo (mutateData f s)).1.data.sex = s.data.sex ∧
    (undo (mutateData f s)).1.data.settings = s.data.settings ∧
    (s.data.periods = levelsToPeriods s.data.levels →
      (undo (mutateData f s)).1.data = s.data) ∧
    (redo (undo (mutateData f s)).1).2 = true ∧
    (redo (undo (mutateData f s)).1).1.data = (mutateData f s).data := by
  obtain ⟨T, hM⟩ := mutateData_shape f s
  rw [hM]
  obtain ⟨h1, h2, h3, h4⟩ := undo_redo_aux (saveData (f s.data)) s.data T
  refine ⟨h1, ?_, ?_, ?_, ?_, h3, ?_⟩
  · rw [h2]; rfl
  · rw [h2]; rfl
  · rw [h2]; rfl
  · intro hc
    rw [h2]
    exact saveData_of_consistent s.data hc
  · rw [h4]; rfl

/-- Witness for C4: one concrete mutation on the default store. -/
theorem undo_redo_roundTrip_witness :
    (undo (mutateData (fun d => { d with sex := [5] }) ⟨defaultData, [], []⟩)).2 = true ∧
    (undo (mutateData (fun d => { d with sex := [5] }) ⟨defaultData, [], []⟩)).1.data
      = defaultData ∧
    (redo (undo (mutateData (fun d => { d with sex := [5] }) ⟨defaultData, [], []⟩)).1).1.data
      = (mutateData (fun d => { d with sex := [5] }) ⟨defaultData, [], []⟩).data := by
  have h := undo_redo_roundTrip ⟨defaultData, [], []⟩ (fun d => { d with sex := [5] })
  exact ⟨h.1, h.2.2.2.2.1 rfl, h.2.2.2.2.2.2⟩

/-- Witness for C2 at the concrete store `{10 ↦ 2, 12 ↦ 1}`. -/
theorem compact_correct_witness :
    (levelsToPeriods [((10 : Int), 2), (12, 1)]).Pairwise
        (fun a b => a.1 + (a.2 : Int) < b.1) ∧
    ∀ p ∈ levelsToPeriods [((10 : Int), 2), (12, 1)], 1 ≤ p.2 :=
  ⟨(compact_correct.2.2.2 [((10 : Int), 2), (12, 1)] (by unfold nodupKeys; decide)).1,
    (compact_correct.2.2.2 [((10 : Int), 2), (12, 1)] (by unfold nodupKeys; decide)).2.1⟩

/- ---------------------------------------------------------------------------
C1 and C8: concrete behaviour of the prediction engine.
--------------------------------------------------------------------------- -/

/-- C1 counterexample: with an empty history the source returns a dict with
no `avg_cycle` key at all (`avgCycle = none`), not `avg_cycle = 28`. -/
theorem predict_empty_avg_cex :
    predictFromPeriods [] 28 14 6 = .ok ⟨[], [], [], none⟩ ∧
    (none : Option Int) ≠ some 28 :=
  ⟨rfl, by decide⟩

/-- C1 amended: for every cycle length, luteal phase and lookahead, `predict`
on an empty start list returns empty ovulation, fertile-window and forecast
lists, and its result carries no `avg_cycle` field (callers substitute the
configured cycle length themselves via `dict.get`). -/
theorem predict_empty (c l : Int) (m : Nat) :
    predictFromPeriods [] c l m = .ok ⟨[], [], [], none⟩ :=
  rfl

set_option maxRecDepth 10000 in
/-- C8: with starts 2024-01-01 and 2024-01-29 and luteal phase 14 the inferred
average cycle is 28; the 2024-01-29 cycle has ovulation 2024-02-12 and fertile
window [2024-02-07, 2024-02-13], matching ovulation = start + (avg − luteal)
and window = [ovulation − 5, ovulation + 1]. -/
theorem predict_example :
    (predictFromPeriods [DateStr.valid 2024 1 1, DateStr.valid 2024 1 29] 28 14 6).map
        (fun r => (r.avgCycle, r.ovulations.head?, r.fertileWindows.head?,
          r.predictedCycles.head?))
      = .ok (some 28, some (toOrdinal 2024 2 12),
          some (toOrdinal 2024 2 7, toOrdinal 2024 2 13), some (toOrdinal 2024 1 29)) ∧
    toOrdinal 2024 2 12 = toOrdinal 2024 1 29 + (28 - 14) ∧
    toOrdinal 2024 2 7 = toOrdinal 2024 2 12 - 5 ∧
    toOrdinal 2024 2 13 = toOrdinal 2024 2 12 + 1 := by
  refine ⟨by decide, by decide, by decide, by decide⟩

/- ---------------------------------------------------------------------------
C7: behaviour of the loader on every stored representation.
--------------------------------------------------------------------------- -/

/-- C7: a missing file and an unreadable/unparseable file both load as the
documented default, and a parsed object gets missing fields defaulted; but
valid JSON that is not an object raises (`AttributeError` on
`data.setdefault`) instead of loading the default — the failing input for the
claim. -/
theorem loadData_spec :
    loadData .missing = .ok defaultData ∧
    loadData .unreadable = .ok defaultData ∧
    loadData .parsedNonDict = .error () ∧
    (∀ raw : RawData, loadData (.parsedDict raw) =
      .ok { periods := raw.periods.getD [], levels := raw.levels.getD [],
            sex := raw.sex.getD [], settings := raw.settings.getD defaultSettings,
            periodDays := raw.periodDays }) :=
  ⟨rfl, rfl, rfl, fun _ => rfl⟩

/- ---------------------------------------------------------------------------
C10: termination of the forecast loop.
--------------------------------------------------------------------------- -/

theorem forecastLoop_isSome (avg : Int) (h : 1 ≤ avg) (dtp : Nat) :
    ∀ (fuel : Nat) (last cur : Int), 1 ≤ fuel → (dtp : Int) - (cur - last) + 2 ≤ fuel →
      (forecastLoop fuel last dtp avg cur).isSome = true := by
  intro fuel
  induction fuel with
  | zero => intro last cur h1 _; omega
  | succ f ih =>
      intro last cur h1 h2
      rw [forecastLoop]
      by_cases hcond : cur - last ≤ (dtp : Int)
      · rw [if_pos hcond]
        have hr := ih last (cur + avg) (by omega) (by omega)
        cases hfl : forecastLoop f last dtp avg (cur + avg) with
        | none => rw [hfl] at hr; simp at hr
        | some l => rfl
      · rw [if_neg hcond]; rfl

theorem forecastLoop_diverges (avg : Int) (h : avg ≤ 0) (dtp : Nat) :
    ∀ (fuel : Nat) (last cur : Int), cur ≤ last → forecastLoop fuel last dtp avg cur = none := by
  intro fuel
  induction fuel with
  | zero => intro last cur _; rfl
  | succ f ih =>
      intro last cur hc
      rw [forecastLoop, if_pos (show cur - last ≤ (dtp : Int) by omega),
        ih last (cur + avg) (by omega)]
      rfl

theorem predictOnDates_eq_of_sorted (s0 : Int) (srest : List Int) (dates : List Int)
    (c lp : Int) (m : Nat) (hs : List.insertionSort (· ≤ ·) dates = s0 :: srest) :
    predictOnDates dates c lp m =
      match forecastLoop (m * 31 + 2) ((s0 :: srest).getLast (List.cons_ne_nil s0 srest))
          (m * 31) (avgOf (s0 :: srest) c)
          ((s0 :: srest).getLast (List.cons_ne_nil s0 srest)) with
      | none => .error .divergence
      | some predicted =>
          .ok { ovulations := predicted.map (fun s => s + (avgOf (s0 :: srest) c - lp)),
                fertileWindows := predicted.map (fun s =>
                  (s + (avgOf (s0 :: srest) c - lp) - 5,
                    s + (avgOf (s0 :: srest) c - lp) + 1)),
                predictedCycles := predicted,
                avgCycle := some (avgOf (s0 :: srest) c) } := by
  unfold predictOnDates
  rw [hs]

set_option maxRecDepth 10000 in
/-- C10: when the average cycle length computed from a non-empty, well-formed
start list is at least 1, the prediction terminates (the fuelled loop
completes within its fuel and the function returns a result); with a
non-positive average the loop body never falsifies its guard, so no amount of
fuel suffices — and duplicate start dates produce exactly that average 0, as
at the concrete duplicated start below. -/
theorem predict_termination :
    (∀ (dates : List Int) (c lp : Int) (m : Nat), dates ≠ [] →
      1 ≤ avgOf (List.insertionSort (· ≤ ·) dates) c →
      (predictOnDates dates c lp m).isOk = true) ∧
    (∀ (last : Int) (dtp : Nat) (avg : Int), avg ≤ 0 →
      ∀ fuel : Nat, forecastLoop fuel last dtp avg last = none) ∧
    predictFromPeriods [.valid 2024 1 1, .valid 2024 1 1] 28 14 6 = .error .divergence := by
  refine ⟨?_, ?_, by decide⟩
  · intro dates c lp m hne havg
    cases hs : List.insertionSort (· ≤ ·) dates with
    | nil =>
        exfalso
        have hlen := List.length_insertionSort (· ≤ ·) dates
        rw [hs] at hlen
        exact hne (List.length_eq_zero.mp hlen.symm)
    | cons s0 srest =>
        rw [hs] at havg
        rw [predictOnDates_eq_of_sorted s0 srest dates c lp m hs]
        have hsome := forecastLoop_isSome (avgOf (s0 :: srest) c) havg (m * 31)
          (m * 31 + 2) ((s0 :: srest).getLast (List.cons_ne_nil s0 srest))
          ((s0 :: srest).getLast (List.cons_ne_nil s0 srest)) (by omega) (by omega)
        cases hfl : forecastLoop (m * 31 + 2)
            ((s0 :: srest).getLast (List.cons_ne_nil s0 srest)) (m * 31)
            (avgOf (s0 :: srest) c)
            ((s0 :: srest).getLast (List.cons_ne_nil s0 srest)) with
        | none => rw [hfl] at hsome; simp at hsome
        | some predicted => rfl
  · intro last dtp avg h fuel
    exact forecastLoop_diverges avg h dtp fuel last last le_rfl

/-- Witness for C10 on a concrete single-start history (average = 28 ≥ 1). -/
theorem predict_termination_witness :
    (predictOnDates [700000] 28 14 6).isOk = true :=
  predict_termination.1 [700000] 28 14 6 (by decide) (by decide)


/- ---------------------------------------------------------------------------
C3: handling of malformed date entries.
--------------------------------------------------------------------------- -/

theorem parseAll_append_malformed (l1 l2 : List DateStr) :
    parseAll (l1 ++ DateStr.malformed :: l2) = none := by
  induction l1 with
  | nil => rfl
  | cons a t ih =>
      rw [List.cons_append, parseAll, ih]
      cases toDate a <;> rfl

set_option maxRecDepth 10000 in
/-- C3 counterexample: one malformed date string among valid period starts
makes `predict` abort with the parse exception, although the same call with
only the valid entry completes — the malformed entry is not skipped. -/
theorem malformed_aborts_cex :
    predictFromPeriods [DateStr.valid 2024 1 1, DateStr.malformed] 28 14 6
        = .error .parseError ∧
    (predictFromPeriods [DateStr.valid 2024 1 1] 28 14 6).isOk = true :=
  ⟨rfl, by decide⟩

theorem dayStatusForMonth_err (periods : List PeriodRec)
    (periodDays sexDates : List DateStr) (c lp : Int) (y mo : Nat) (e : PredictErr)
    (hp : predictFromPeriods (periods.map (·.start)) c lp 6 = .error e) :
    dayStatusForMonth periods periodDays sexDates c lp y mo = .error e := by
  unfold dayStatusForMonth
  rw [hp]

theorem dayStatusForMonth_ok (periods : List PeriodRec)
    (periodDays sexDates : List DateStr) (c lp : Int) (y mo : Nat)
    (pred : PredictResult)
    (hp : predictFromPeriods (periods.map (·.start)) c lp 6 = .ok pred) :
    dayStatusForMonth periods periodDays sexDates c lp y mo =
      if periodDays.any (fun pd => (toDate pd).isNone) then .error .parseError
      else
        .ok (((List.range (daysInMonth y mo)).map (· + 1)).filterMap (fun d =>
          let cur := toOrdinal y mo d
          let tags :=
            tagsForDay periods periodDays sexDates pred.ovulations pred.fertileWindows cur
          if tags = [] then none else some (cur, tags))) := by
  unfold dayStatusForMonth
  rw [hp]

theorem tagsForDay_skip_dur (sd : DateStr) (periods : List PeriodRec)
    (periodDays sexDates : List DateStr) (ov : List Int) (fw : List (Int × Int))
    (cur : Int) :
    tagsForDay (⟨sd, none⟩ :: periods) periodDays sexDates ov fw cur =
      tagsForDay (⟨sd, some 0⟩ :: periods) periodDays sexDates ov fw cur := by
  unfold tagsForDay
  dsimp only [List.any_cons]
  cases htd : toDate sd with
  | none => rfl
  | some pd =>
      have hz : decide (pd ≤ cur ∧ cur < pd + 0) = false := by
        rw [decide_eq_false_iff_not]
        omega
      dsimp only
      rw [hz]

/-- C3 amended: a malformed period-start string aborts `predict` with the
parse exception (for any surrounding valid entries), and a malformed
`period_days` string aborts `day_status_for_month`; only a `periods` entry
whose duration value is malformed is skipped locally — it behaves exactly
like an entry of duration 0, its start still feeding the prediction. -/
theorem malformed_handling :
    (∀ (l1 l2 : List DateStr) (c lp : Int) (m : Nat),
      predictFromPeriods (l1 ++ DateStr.malformed :: l2) c lp m = .error .parseError) ∧
    (∀ (periods : List PeriodRec) (l1 l2 sexDates : List DateStr) (c lp : Int)
        (y mo : Nat),
      ∃ e, dayStatusForMonth periods (l1 ++ DateStr.malformed :: l2) sexDates c lp y mo
        = .error e) ∧
    (∀ (sd : DateStr) (periods : List PeriodRec) (periodDays sexDates : List DateStr)
        (c lp : Int) (y mo : Nat),
      dayStatusForMonth (⟨sd, none⟩ :: periods) periodDays sexDates c lp y mo =
        dayStatusForMonth (⟨sd, some 0⟩ :: periods) periodDays sexDates c lp y mo) := by
  refine ⟨?_, ?_, ?_⟩
  · intro l1 l2 c lp m
    unfold predictFromPeriods
    rw [parseAll_append_malformed]
  · intro periods l1 l2 sexDates c lp y mo
    cases hp : predictFromPeriods (periods.map (·.start)) c lp 6 with
    | error e => exact ⟨e, dayStatusForMonth_err _ _ _ _ _ _ _ _ hp⟩
    | ok pred =>
        refine ⟨.parseError, ?_⟩
        rw [dayStatusForMonth_ok _ _ _ _ _ _ _ _ hp,
          if_pos (show ((l1 ++ DateStr.malformed :: l2).any
            fun pd => (toDate pd).isNone) = true by simp [toDate])]
  · intro sd periods periodDays sexDates c lp y mo
    cases hp : predictFromPeriods (sd :: periods.map (·.start)) c lp 6 with
    | error e =>
        rw [dayStatusForMonth_err (⟨sd, none⟩ :: periods) _ _ _ _ _ _ _ hp,
          dayStatusForMonth_err (⟨sd, some 0⟩ :: periods) _ _ _ _ _ _ _ hp]
    | ok pred =>
        rw [dayStatusForMonth_ok (⟨sd, none⟩ :: periods) _ _ _ _ _ _ _ hp,
          dayStatusForMonth_ok (⟨sd, some 0⟩ :: periods) _ _ _ _ _ _ _ hp]
        by_cases hpd : (periodDays.any fun pd => (toDate pd).isNone) = true
        · rw [if_pos hpd, if_pos hpd]
        · rw [if_neg hpd, if_neg hpd]
          congr 1
          apply List.filterMap_congr
          intro d _
          dsimp only
          rw [tagsForDay_skip_dur]

/- ---------------------------------------------------------------------------
C9: sparseness of the month status map.
--------------------------------------------------------------------------- -/

/-- C9: whenever `statusForMonth` completes, no day of the returned map has
an empty tag set — days without tags are omitted entirely. -/
theorem dayStatus_sparse (periods : List PeriodRec) (periodDays sexDates : List DateStr)
    (c lp : Int) (y mo : Nat) (res : List (Int × List String))
    (h : dayStatusForMonth periods periodDays sexDates c lp y mo = .ok res) :
    ∀ e ∈ res, e.2 ≠ [] := by
  cases hp : predictFromPeriods (periods.map (·.start)) c lp 6 with
  | error e =>
      rw [dayStatusForMonth_err _ _ _ _ _ _ _ _ hp] at h
      cases h
  | ok pred =>
      rw [dayStatusForMonth_ok _ _ _ _ _ _ _ _ hp] at h
      by_cases hpd : (periodDays.any fun pd => (toDate pd).isNone) = true
      · rw [if_pos hpd] at h; cases h
      · rw [if_neg hpd] at h
        injection h with h
        intro e he
        rw [← h] at he
        obtain ⟨d, hd, hfd⟩ := List.mem_filterMap.mp he
        dsimp only at hfd
        split at hfd
        · cases hfd
        · rename_i htags
          injection hfd with hfd2
          rw [← hfd2]
          exact htags

/-- Witness for C9: a concrete month where exactly one day carries a tag. -/
theorem dayStatus_sparse_witness :
    ((toOrdinal 2024 1 5, ["sex"]) : Int × List String).2 ≠ [] :=
  dayStatus_sparse [] [] [DateStr.valid 2024 1 5] 28 14 2024 1
    [(toOrdinal 2024 1 5, ["sex"])] (by decide) (toOrdinal 2024 1 5, ["sex"]) (by decide)

end PregnancyTracker
